import Mathlib

/-!
Verification development for the `server.js` chat-completion proxy
(streaming frame reassembly and reasoning-splice transform).

Text is modelled as `List Char` (the JavaScript code operates on strings,
i.e. sequences of characters).  Absent JSON fields are modelled as `none`;
JavaScript truthiness of an optional string field (`undefined`, `null` and
`""` are falsy) is modelled by `truthy`.
-/

set_option autoImplicit false

namespace NimProxy

/-- The line terminator used by the stream splitter (`const NL = '\n'`). -/
def NLC : Char := '\n'

/-- JavaScript `buffer.split(NL)`: splits a character sequence at every
newline, keeping empty segments, always returning at least one segment
(`"".split` gives `[""]`). -/
def jsSplit : List Char → List (List Char)
  | [] => [[]]
  | c :: rest =>
    match jsSplit rest with
    | [] => [[c]]
    | l :: ls => if c = NLC then [] :: l :: ls else (c :: l) :: ls

/-- Direct form of the splitter: the complete (terminated) lines together
with the unterminated trailing fragment. -/
def splitLines : List Char → List (List Char) × List Char
  | [] => ([], [])
  | c :: rest =>
    let p := splitLines rest
    if c = NLC then ([] :: p.1, p.2)
    else
      match p.1 with
      | [] => ([], c :: p.2)
      | l :: ls => ((c :: l) :: ls, p.2)

/-- One reassembly step, from `server.js` lines 97–99:
`buffer += chunk; const lines = buffer.split(NL); buffer = lines.pop() || ''`.
Returns the complete lines handed to the per-line handler and the new
pending buffer. -/
def feed (pending chunk : List Char) : List (List Char) × List Char :=
  let ls := jsSplit (pending ++ chunk)
  (ls.dropLast, (ls.getLast?).getD [])

/-- Feeding a whole sequence of chunks through the reassembler, starting
from a given pending buffer, collecting all complete lines in order. -/
def feedAll (pending : List Char) : List (List Char) → List (List Char) × List Char
  | [] => ([], pending)
  | ch :: chs =>
    let p := feed pending ch
    let q := feedAll p.2 chs
    (p.1 ++ q.1, q.2)

/-- The replacement character U+FFFD produced for UTF-8 decode errors. -/
def replChar : Char := Char.ofNat 0xFFFD

/-- Modelled from the spec: the raw transport hands the stream handler
byte chunks, and the code's `chunk.toString()` (Node `Buffer#toString`
with the default utf8 encoding, not part of the repository) decodes each
chunk independently — WHATWG UTF-8 decoding, substituting U+FFFD for
every invalid or truncated sequence.  `Utf8State` is the WHATWG decoder
state: the code point under construction, how many continuation bytes it
needs and has seen, and the admissible range for the next byte. -/
structure Utf8State where
  codePoint : Nat
  needed : Nat
  seen : Nat
  lo : Nat
  hi : Nat
  deriving DecidableEq

/-- The initial (between-characters) decoder state. -/
def utf8Init : Utf8State := ⟨0, 0, 0, 0x80, 0xBF⟩

/-- Handling one byte in the between-characters state: ASCII and lead
bytes, with the E0/ED and F0/F4 boundary adjustments; anything else is an
error producing one replacement character. -/
def utf8Lead (b : Nat) : List Char × Utf8State :=
  if b ≤ 0x7F then ([Char.ofNat b], utf8Init)
  else if 0xC2 ≤ b ∧ b ≤ 0xDF then ([], ⟨b - 0xC0, 1, 0, 0x80, 0xBF⟩)
  else if 0xE0 ≤ b ∧ b ≤ 0xEF then
    ([], ⟨b - 0xE0, 2, 0, if b = 0xE0 then 0xA0 else 0x80,
          if b = 0xED then 0x9F else 0xBF⟩)
  else if 0xF0 ≤ b ∧ b ≤ 0xF4 then
    ([], ⟨b - 0xF0, 3, 0, if b = 0xF0 then 0x90 else 0x80,
          if b = 0xF4 then 0x8F else 0xBF⟩)
  else ([replChar], utf8Init)

/-- Handling one byte in an arbitrary state: an in-range continuation
byte extends the code point (finishing the character when it is the last
one); an out-of-range byte emits a replacement character and reprocesses
the byte as a lead byte (the WHATWG prepend-and-restart rule). -/
def utf8Byte (st : Utf8State) (b : Nat) : List Char × Utf8State :=
  if st.needed = 0 then utf8Lead b
  else if st.lo ≤ b ∧ b ≤ st.hi then
    (if st.seen + 1 = st.needed then
      ([Char.ofNat (st.codePoint * 64 + (b - 0x80))], utf8Init)
     else ([], ⟨st.codePoint * 64 + (b - 0x80), st.needed, st.seen + 1, 0x80, 0xBF⟩))
  else
    (replChar :: (utf8Lead b).1, (utf8Lead b).2)

/-- Running the decoder over a byte list; a truncated character at the
end of the chunk yields one replacement character. -/
def utf8DecodeLoop (st : Utf8State) : List Nat → List Char
  | [] => if st.needed = 0 then [] else [replChar]
  | b :: rest =>
    let p := utf8Byte st b
    p.1 ++ utf8DecodeLoop p.2 rest

/-- Decoding one whole chunk, as `chunk.toString()` does. -/
def utf8Decode (l : List Nat) : List Char := utf8DecodeLoop utf8Init l

/-- The UTF-8 encoding of one character. -/
def utf8EncodeChar (c : Char) : List Nat :=
  let n := c.toNat
  if n ≤ 0x7F then [n]
  else if n ≤ 0x7FF then [0xC0 + n / 64, 0x80 + n % 64]
  else if n ≤ 0xFFFF then [0xE0 + n / 4096, 0x80 + n / 64 % 64, 0x80 + n % 64]
  else [0xF0 + n / 0x40000, 0x80 + n / 4096 % 64, 0x80 + n / 64 % 64, 0x80 + n % 64]

/-- The UTF-8 encoding of a character sequence. -/
def utf8Encode (s : List Char) : List Nat := (s.map utf8EncodeChar).flatten

/-- One reassembly step at the byte level, exactly as the code performs
it: `buffer += chunk.toString()` decodes the received byte chunk on its
own before appending it to the string buffer. -/
def feedBytes (pending : List Char) (chunk : List Nat) :
    List (List Char) × List Char :=
  feed pending (utf8Decode chunk)

/-- Feeding a sequence of byte chunks through the reassembler. -/
def feedAllBytes (pending : List Char) :
    List (List Nat) → List (List Char) × List Char
  | [] => ([], pending)
  | ch :: chs =>
    let p := feedBytes pending ch
    let q := feedAllBytes p.2 chs
    (p.1 ++ q.1, q.2)

/-- The slice of a streamed delta record that the code reads:
`delta.reasoning_content` and `delta.content`. -/
structure Delta where
  reasoning_content : Option (List Char)
  content : Option (List Char)
  deriving DecidableEq

/-- JavaScript truthiness of an optional string field: absent and
empty-string are both falsy. -/
def truthy : Option (List Char) → Bool
  | none => false
  | some s => !s.isEmpty

/-- The opening delimiter emitted by the splice (source template
`<think>${NL}${reasoning}` with the reasoning fragment removed). -/
def OPEN_DELIMITER : List Char := ('<' :: "think>".toList) ++ [NLC]

/-- The closing delimiter emitted by the splice (source template
`</think>${NL}${NL}${content}` with the content fragment removed). -/
def CLOSE_DELIMITER : List Char := ('<' :: "/think>".toList) ++ [NLC, NLC]

/-- The `out` computation of the stream data handler (`server.js`
lines 118–138) together with the updated `reasoningStarted` flag.
`st` is the `reasoningStarted` flag before the frame. -/
def spliceOut (st : Bool) (r c : Option (List Char)) : List Char × Bool :=
  let p1 :=
    if truthy r && !st then (OPEN_DELIMITER ++ r.getD [], true)
    else if truthy r then (r.getD [], st)
    else ([], st)
  if truthy c && p1.2 then (p1.1 ++ CLOSE_DELIMITER ++ c.getD [], false)
  else if truthy c then (p1.1 ++ c.getD [], p1.2)
  else p1

/-- Effect of the splice on the delta record itself (`server.js`
lines 140–141): `delta.content = out; delete delta.reasoning_content`. -/
def spliceDelta (st : Bool) (d : Delta) : Delta × Bool :=
  let p := spliceOut st d.reasoning_content d.content
  ({ reasoning_content := none, content := some p.1 }, p.2)

/-- Concatenated visible text produced by running a sequence of deltas
through the splice, with the final `reasoningStarted` flag. -/
def spliceRun (st : Bool) : List Delta → List Char × Bool
  | [] => ([], st)
  | d :: ds =>
    let p := spliceOut st d.reasoning_content d.content
    let q := spliceRun p.2 ds
    (p.1 ++ q.1, q.2)

/-- Compile-time switch from the source (`const SHOW_REASONING = true`). -/
def SHOW_REASONING : Bool := true

/-- The slice of a parsed stream record the handler reads:
`data.choices?.[0]?.delta` (absent when the record has no delta). -/
structure Rec where
  delta : Option Delta
  deriving DecidableEq

/-- Per-record handling from the stream data handler: records without a
delta cause an early `return` (no write); otherwise the delta is rewritten
in place and the record is re-emitted. Returns the outgoing record (or
`none` if nothing is written) and the updated flag. -/
def handleRec (st : Bool) (r : Rec) : Option Rec × Bool :=
  match r.delta with
  | none => (none, st)
  | some d =>
    if SHOW_REASONING then
      let p := spliceDelta st d
      (some { delta := some p.1 }, p.2)
    else (some { delta := some d }, st)

/-- Boolean test that `pat` is an initial segment of `l` (JavaScript
`line.startsWith(pat)`). -/
def beginsWith : List Char → List Char → Bool
  | [], _ => true
  | _ :: _, [] => false
  | p :: ps, c :: cs => p == c && beginsWith ps cs

/-- Boolean test that `pat` occurs contiguously somewhere in the sequence
(JavaScript `line.includes(pat)`). -/
def containsSeq (pat : List Char) : List Char → Bool
  | [] => beginsWith pat []
  | c :: rest => beginsWith pat (c :: rest) || containsSeq pat rest

/-- The fixed data prefix of payload lines (`'data: '`). -/
def dataMarker : List Char := "data: ".toList

/-- The terminal sentinel token (`'[DONE]'`). -/
def doneMarker : List Char := "[DONE]".toList

/-- Classification of a reassembled line. -/
inductive Frame where
  | dataF (r : Rec)
  | terminal
  | ignorable
  deriving DecidableEq

/-- Line classification from the stream handler (`server.js` lines
102–109): non-`data: ` lines are skipped, candidate lines containing
`[DONE]` are terminal, otherwise the remainder after the 6-character
prefix is JSON-parsed — parsing is modelled by the abstract function `P`,
with `none` standing for a thrown parse error (caught and swallowed). -/
def classify (P : List Char → Option Rec) (line : List Char) : Frame :=
  if !(beginsWith dataMarker line) then Frame.ignorable
  else if containsSeq doneMarker line then Frame.terminal
  else
    match P (line.drop 6) with
    | some r => Frame.dataF r
    | none => Frame.ignorable

/-- Per-line processing: the list of downstream writes this line produces
and the updated `reasoningStarted` flag.  A terminal line is written back
as `line + NL + NL`; a data record is rewritten by `handleRec` and written
as `'data: ' + serialized + NL + NL`, with serialization modelled by the
abstract function `S`. -/
def processLine (P : List Char → Option Rec) (S : Rec → List Char)
    (st : Bool) (line : List Char) : List (List Char) × Bool :=
  match classify P line with
  | Frame.ignorable => ([], st)
  | Frame.terminal => ([line ++ [NLC, NLC]], st)
  | Frame.dataF r =>
    match handleRec st r with
    | (none, st1) => ([], st1)
    | (some r1, st1) => ([dataMarker ++ S r1 ++ [NLC, NLC]], st1)

/-- Processing a sequence of lines in order, threading the flag. -/
def processLines (P : List Char → Option Rec) (S : Rec → List Char)
    (st : Bool) : List (List Char) → List (List Char) × Bool
  | [] => ([], st)
  | l :: ls =>
    let p := processLine P S st l
    let q := processLines P S p.2 ls
    (p.1 ++ q.1, q.2)

/-- The slice of a non-streaming choice message that the rewrite reads:
`role`, `content` and `reasoning_content`. -/
structure Msg where
  role : List Char
  content : Option (List Char)
  reasoning_content : Option (List Char)
  deriving DecidableEq

/-- The non-stream rewrite of one message's visible content (`server.js`
lines 159–162): `choice.message?.content || ''`, then if
`SHOW_REASONING && choice.message?.reasoning_content` the content becomes
the template `<think>\n` + reasoning + `\n</think>\n\n` + content. -/
def aggregate (m : Msg) : List Char :=
  let fullContent := match m.content with
    | none => []
    | some c => if c.isEmpty then [] else c
  if SHOW_REASONING && truthy m.reasoning_content then
    OPEN_DELIMITER ++ m.reasoning_content.getD [] ++ [NLC] ++
      (('<' :: "/think>".toList) ++ [NLC, NLC]) ++ fullContent
  else fullContent

/-- The static route table (`MODEL_MAPPING`). -/
def MODEL_MAPPING : List (String × String) :=
  [("deepseek-v3.2", "deepseek-ai/deepseek-v3.2"),
   ("deepseek-r1", "deepseek-ai/deepseek-r1"),
   ("deepseek-r1-0528", "deepseek-ai/deepseek-r1-0528"),
   ("kimi-thinking", "moonshotai/kimi-k2-thinking"),
   ("kimi-k2", "moonshotai/kimi-k2-instruct"),
   ("gpt-3.5-turbo", "nvidia/llama-3.1-nemotron-ultra-253b-v1"),
   ("gpt-4", "deepseek-ai/deepseek-v3.1"),
   ("gpt-4-turbo", "moonshotai/kimi-k2-instruct-0905"),
   ("gpt-4o", "deepseek-ai/deepseek-v3.1"),
   ("claude-3-opus", "deepseek-ai/deepseek-r1"),
   ("claude-3-sonnet", "deepseek-ai/deepseek-v3.2"),
   ("gemini-pro", "qwen/qwen3-next-80b-a3b-thinking")]

/-- The fixed default fallback model. -/
def DEFAULT_MODEL : String := "deepseek-ai/deepseek-v3.2"

/-- The property names every JavaScript object literal inherits from
`Object.prototype`; indexing `MODEL_MAPPING` with one of these yields the
inherited value (a built-in function, or the prototype object for
`__proto__`) instead of `undefined`. -/
def OBJECT_PROTOTYPE_KEYS : List String :=
  ["constructor", "hasOwnProperty", "isPrototypeOf", "propertyIsEnumerable",
   "toLocaleString", "toString", "valueOf", "__proto__",
   "__defineGetter__", "__defineSetter__", "__lookupGetter__", "__lookupSetter__"]

/-- A JavaScript value as far as the routing code observes it:
`undefined`, a string, or an inherited non-string object/function value
(always truthy). -/
inductive JSVal where
  | undef
  | str (s : String)
  | builtin (name : String)
  deriving DecidableEq

/-- JavaScript property access `MODEL_MAPPING[model]`: own properties of
the object literal first, then the `Object.prototype` chain, then
`undefined`. -/
def objIndex (model : String) : JSVal :=
  match List.lookup model MODEL_MAPPING with
  | some v => JSVal.str v
  | none => if model ∈ OBJECT_PROTOTYPE_KEYS then JSVal.builtin model else JSVal.undef

/-- JavaScript truthiness of such a value: `undefined` and the empty
string are falsy, inherited functions/objects are truthy. -/
def jsTruthy : JSVal → Bool
  | JSVal.undef => false
  | JSVal.str s => !s.isEmpty
  | JSVal.builtin _ => true

/-- Model routing (`server.js` lines 56–58):
`let nimModel = MODEL_MAPPING[model]; if (!nimModel && model) nimModel =
model; if (!nimModel) nimModel = DEFAULT_MODEL`.  A JavaScript-falsy
identifier (absent or the empty string) is modelled as `""`. -/
def routeModel (model : String) : JSVal :=
  let m0 := objIndex model
  let m1 := if !(jsTruthy m0) && !model.isEmpty then JSVal.str model else m0
  if !(jsTruthy m1) then JSVal.str DEFAULT_MODEL else m1

/-- One upstream choice as read by the non-stream path. -/
structure Choice where
  message : Msg
  deriving DecidableEq

/-- The upstream non-streaming response body.  `id`, `created` and `model`
are present on the upstream body but never read by the code. -/
structure UpstreamBody where
  id : String
  created : Nat
  model : String
  choices : List Choice
  usage : Option String
  deriving DecidableEq

/-- The response object the proxy returns on the non-streaming path. -/
structure ProxyResponse where
  id : String
  object : String
  created : Nat
  model : String
  choices : List (List Char × List Char)
  usage : String
  deriving DecidableEq

/-- Construction of the non-streaming response (`server.js` lines
158–176).  `now` stands for the value of `Date.now()` in milliseconds:
the `id` is freshly generated from it, `created` is
`Math.floor(Date.now() / 1000)`, the `model` field echoes the caller's
public identifier, each choice's message is rewritten by `aggregate`
(keeping its role), and the upstream usage is forwarded (`|| {}`). -/
def buildNonStream (model : String) (now : Nat) (up : UpstreamBody) :
    ProxyResponse :=
  { id := "chatcmpl-" ++ toString now
    object := "chat.completion"
    created := now / 1000
    model := model
    choices := up.choices.map (fun ch => (ch.message.role, aggregate ch.message))
    usage := up.usage.getD "{}" }

/-- The configuration object passed to the outbound `axios.post`
(`server.js` lines 77–83).  Axios accepts an optional cancellation
binding (`signal` / `cancelToken`); the source sets none, so the field is
`none` here. -/
structure AxiosConfig where
  authHeader : String
  contentType : String
  responseType : String
  signal : Option Unit
  deriving DecidableEq

/-- The outbound request configuration built by the code: only the two
headers and the response type are set; no cancellation signal is bound. -/
def upstreamConfig (apiKey : String) (stream : Bool) : AxiosConfig :=
  { authHeader := "Bearer " ++ apiKey
    contentType := "application/json"
    responseType := if stream then "stream" else "json"
    signal := none }

/-- The event subscriptions the streaming path registers on the upstream
response stream (`response.data.on(...)`, `server.js` lines 96, 152, 153). -/
def upstreamStreamSubscriptions : List String := ["data", "end", "error"]

/-- The event subscriptions the handler registers on the inbound request
or response objects: the source registers none (in particular no
`close` handler for client disconnects). -/
def inboundReqSubscriptions : List String := []

/-- Output tokens of the splice, separating the delimiters it emits from
the fragments it passes through. -/
inductive Tok where
  | tOpen
  | tClose
  | piece (s : List Char)
  deriving DecidableEq

/-- Rendering a token back to text. -/
def renderTok : Tok → List Char
  | Tok.tOpen => OPEN_DELIMITER
  | Tok.tClose => CLOSE_DELIMITER
  | Tok.piece s => s

/-- Rendering a token sequence to text. -/
def render (ts : List Tok) : List Char := (ts.map renderTok).flatten

/-- Token-level form of `spliceOut`: same branch structure, but the
emitted text is kept as a token list. -/
def stepToks (st : Bool) (r c : Option (List Char)) : List Tok × Bool :=
  let p1 :=
    if truthy r && !st then ([Tok.tOpen, Tok.piece (r.getD [])], true)
    else if truthy r then ([Tok.piece (r.getD [])], st)
    else ([], st)
  if truthy c && p1.2 then (p1.1 ++ [Tok.tClose, Tok.piece (c.getD [])], false)
  else if truthy c then (p1.1 ++ [Tok.piece (c.getD [])], p1.2)
  else p1

/-- Token-level form of `spliceRun`. -/
def runToks (st : Bool) : List Delta → List Tok × Bool
  | [] => ([], st)
  | d :: ds =>
    let p := stepToks st d.reasoning_content d.content
    let q := runToks p.2 ds
    (p.1 ++ q.1, q.2)

/-- Fragment events carried by a delta sequence: a truthy reasoning
fragment, then a truthy content fragment, per delta; frames carrying
neither contribute nothing. -/
inductive Ev where
  | evR (s : List Char)
  | evC (s : List Char)
  deriving DecidableEq

/-- The event sequence of a delta sequence. -/
def events : List Delta → List Ev
  | [] => []
  | d :: ds =>
    (if truthy d.reasoning_content then [Ev.evR (d.reasoning_content.getD [])] else []) ++
    (if truthy d.content then [Ev.evC (d.content.getD [])] else []) ++ events ds

/-- Whether an event is a reasoning event. -/
def isR : Ev → Bool
  | Ev.evR _ => true
  | Ev.evC _ => false

/-- The splice expressed on events: an opening delimiter exactly when a
reasoning event arrives with the flag down, a closing delimiter exactly
when a content event arrives with the flag up. -/
def evSplice (st : Bool) : List Ev → List Tok × Bool
  | [] => ([], st)
  | Ev.evR s :: es =>
    let t := if st then [Tok.piece s] else [Tok.tOpen, Tok.piece s]
    let q := evSplice true es
    (t ++ q.1, q.2)
  | Ev.evC s :: es =>
    let t := if st then [Tok.tClose, Tok.piece s] else [Tok.piece s]
    let q := evSplice false es
    (t ++ q.1, q.2)

/-- Whether a token is the opening delimiter. -/
def isOpenTok : Tok → Bool
  | Tok.tOpen => true
  | _ => false

/-- Whether a token is the closing delimiter. -/
def isCloseTok : Tok → Bool
  | Tok.tClose => true
  | _ => false

/-- Number of tokens satisfying `p`. -/
def countTok (p : Tok → Bool) (ts : List Tok) : Nat := (ts.filter p).length

/-- Number of maximal contiguous runs of elements satisfying `p`, given
whether the previous element satisfied `p`. -/
def runsFrom {α : Type} (p : α → Bool) : Bool → List α → Nat
  | _, [] => 0
  | prev, a :: rest => (if p a && !prev then 1 else 0) + runsFrom p (p a) rest

/-- Number of maximal contiguous runs of elements satisfying `p`. -/
def countRuns {α : Type} (p : α → Bool) (l : List α) : Nat := runsFrom p false l

/-- Number of content events that directly follow a reasoning event
(`prev` tells whether the element before the list was a reasoning event). -/
def closesFrom : Bool → List Ev → Nat
  | _, [] => 0
  | prev, e :: rest => (if !(isR e) && prev then 1 else 0) + closesFrom (isR e) rest

/-- Every closing delimiter in the token list is immediately followed by
a passed-through fragment. -/
def closeOk : List Tok → Bool
  | [] => true
  | Tok.tClose :: rest =>
    (match rest with
     | Tok.piece _ :: _ => true
     | _ => false) && closeOk rest
  | _ :: rest => closeOk rest

/-- Number of (possibly overlapping) occurrences of `pat` in a sequence. -/
def countSeq (pat : List Char) : List Char → Nat
  | [] => 0
  | c :: rest => (if beginsWith pat (c :: rest) then 1 else 0) + countSeq pat rest

theorem jsSplit_eq_splitLines (l : List Char) :
    jsSplit l = (splitLines l).1 ++ [(splitLines l).2] := by
  induction l with
  | nil => rfl
  | cons c rest ih =>
    simp only [jsSplit, splitLines, ih]
    by_cases h : c = NLC
    · cases hp : (splitLines rest).1 with
      | nil => simp [h, hp]
      | cons l0 ls => simp [h, hp]
    · simp only [h, if_false]
      cases hp : (splitLines rest).1 with
      | nil => simp [hp]
      | cons l0 ls => simp [hp]

theorem feed_eq_splitLines (pending chunk : List Char) :
    feed pending chunk = splitLines (pending ++ chunk) := by
  unfold feed
  rw [jsSplit_eq_splitLines]
  simp

theorem splitLines_append (a b : List Char) :
    splitLines (a ++ b) =
      ((splitLines a).1 ++ (splitLines ((splitLines a).2 ++ b)).1,
       (splitLines ((splitLines a).2 ++ b)).2) := by
  induction a with
  | nil => simp [splitLines]
  | cons c a' ih =>
    simp only [List.cons_append, splitLines, List.append_eq]
    rw [ih]
    by_cases h : c = NLC
    · simp [h]
    · simp only [h, if_false]
      cases hp : (splitLines a').1 with
      | nil =>
        simp only [hp, List.nil_append, splitLines, h, if_false]
        cases hq : (splitLines ((splitLines a').2 ++ b)).1 with
        | nil => simp [hq]
        | cons q0 qs => simp [hq]
      | cons l0 ls => simp [hp]

theorem splitLines_of_no_newline (l : List Char) (h : NLC ∉ l) :
    splitLines l = ([], l) := by
  induction l with
  | nil => rfl
  | cons c rest ih =>
    have hc : ¬ c = NLC := by
      intro hc; exact h (hc ▸ List.mem_cons_self c rest)
    have hr : NLC ∉ rest := fun hm => h (List.mem_cons_of_mem c hm)
    simp [splitLines, ih hr, hc]

theorem no_newline_splitLines_tail (l : List Char) : NLC ∉ (splitLines l).2 := by
  induction l with
  | nil => simp [splitLines]
  | cons c rest ih =>
    by_cases h : c = NLC
    · simpa [splitLines, h] using ih
    · cases hp : (splitLines rest).1 with
      | nil =>
        simp only [splitLines, h, if_false, hp]
        intro hm
        rcases List.mem_cons.mp hm with h1 | h2
        · exact h h1.symm
        · exact ih h2
      | cons l0 ls => simpa [splitLines, h, hp] using ih

theorem feedAll_eq_splitLines (chunks : List (List Char)) :
    ∀ pending : List Char, NLC ∉ pending →
      feedAll pending chunks = splitLines (pending ++ chunks.flatten) := by
  induction chunks with
  | nil =>
    intro pending h
    simp [feedAll, splitLines_of_no_newline pending h]
  | cons ch chs ih =>
    intro pending h
    have hstep : feed pending ch = splitLines (pending ++ ch) :=
      feed_eq_splitLines pending ch
    have htail : NLC ∉ (splitLines (pending ++ ch)).2 :=
      no_newline_splitLines_tail (pending ++ ch)
    have ihx := ih (splitLines (pending ++ ch)).2 htail
    have happ := splitLines_append (pending ++ ch) chs.flatten
    simp only [feedAll, hstep, ihx]
    rw [List.flatten_cons, ← List.append_assoc, happ]

theorem feedAll_char_eq_feed_flatten (chunks : List (List Char)) :
    feedAll [] chunks = feed [] chunks.flatten := by
  rw [feed_eq_splitLines]
  exact feedAll_eq_splitLines chunks [] (by simp)

theorem utf8Decode_encodeChar (c : Char) (bs : List Nat) :
    utf8Decode (utf8EncodeChar c ++ bs) = c :: utf8Decode bs := by
  have hv : c.toNat < 0xD800 ∨ (0xDFFF < c.toNat ∧ c.toNat < 0x110000) := by
    have h := c.valid
    simpa [UInt32.isValidChar, Nat.isValidChar, Char.toNat] using h
  by_cases h1 : c.toNat ≤ 0x7F
  · have he : utf8EncodeChar c = [c.toNat] := by simp [utf8EncodeChar, h1]
    have s1 : utf8Byte utf8Init c.toNat = ([Char.ofNat c.toNat], utf8Init) := by
      simp [utf8Byte, utf8Lead, utf8Init, h1]
    rw [he]
    simp only [utf8Decode, List.cons_append, List.nil_append, utf8DecodeLoop]
    rw [s1, Char.ofNat_toNat]
    simp
  · by_cases h2 : c.toNat ≤ 0x7FF
    · have he : utf8EncodeChar c = [0xC0 + c.toNat / 64, 0x80 + c.toNat % 64] := by
        simp [utf8EncodeChar, h1, h2]
      have hb0 : ¬ (0xC0 + c.toNat / 64 ≤ 0x7F) := by omega
      have hb1 : 0xC2 ≤ 0xC0 + c.toNat / 64 ∧ 0xC0 + c.toNat / 64 ≤ 0xDF := by omega
      have hb2 : 0x80 ≤ 0x80 + c.toNat % 64 ∧ 0x80 + c.toNat % 64 ≤ 0xBF := by omega
      have s1 : utf8Byte utf8Init (0xC0 + c.toNat / 64) =
          ([], ⟨0xC0 + c.toNat / 64 - 0xC0, 1, 0, 0x80, 0xBF⟩) := by
        simp [utf8Byte, utf8Lead, utf8Init, hb0, hb1]
      have s2 : utf8Byte ⟨0xC0 + c.toNat / 64 - 0xC0, 1, 0, 0x80, 0xBF⟩
          (0x80 + c.toNat % 64) = ([c], utf8Init) := by
        simp only [utf8Byte]
        rw [if_neg (by simp), if_pos hb2, if_pos (by simp)]
        rw [show (0xC0 + c.toNat / 64 - 0xC0) * 64 + (0x80 + c.toNat % 64 - 0x80) =
              c.toNat from by omega,
          Char.ofNat_toNat]
      rw [he]
      simp only [utf8Decode, List.cons_append, List.nil_append, utf8DecodeLoop]
      rw [s1]
      simp only [List.nil_append]
      rw [s2]
      simp
    · by_cases h3 : c.toNat ≤ 0xFFFF
      · have he : utf8EncodeChar c =
            [0xE0 + c.toNat / 4096, 0x80 + c.toNat / 64 % 64, 0x80 + c.toNat % 64] := by
          simp [utf8EncodeChar, h1, h2, h3]
        have hb0 : ¬ (0xE0 + c.toNat / 4096 ≤ 0x7F) := by omega
        have hb1 : ¬ (0xC2 ≤ 0xE0 + c.toNat / 4096 ∧ 0xE0 + c.toNat / 4096 ≤ 0xDF) := by
          omega
        have hb2 : 0xE0 ≤ 0xE0 + c.toNat / 4096 ∧ 0xE0 + c.toNat / 4096 ≤ 0xEF := by
          omega
        have hlo : (if 0xE0 + c.toNat / 4096 = 0xE0 then 0xA0 else 0x80) ≤
            0x80 + c.toNat / 64 % 64 := by
          split <;> omega
        have hhi : 0x80 + c.toNat / 64 % 64 ≤
            (if 0xE0 + c.toNat / 4096 = 0xED then 0x9F else 0xBF) := by
          split <;> omega
        have hb3 : 0x80 ≤ 0x80 + c.toNat % 64 ∧ 0x80 + c.toNat % 64 ≤ 0xBF := by omega
        have s1 : utf8Byte utf8Init (0xE0 + c.toNat / 4096) =
            ([], ⟨0xE0 + c.toNat / 4096 - 0xE0, 2, 0,
                  if 0xE0 + c.toNat / 4096 = 0xE0 then 0xA0 else 0x80,
                  if 0xE0 + c.toNat / 4096 = 0xED then 0x9F else 0xBF⟩) := by
          simp [utf8Byte, utf8Lead, utf8Init, hb0, hb1, hb2]
        have s2 : utf8Byte ⟨0xE0 + c.toNat / 4096 - 0xE0, 2, 0,
              if 0xE0 + c.toNat / 4096 = 0xE0 then 0xA0 else 0x80,
              if 0xE0 + c.toNat / 4096 = 0xED then 0x9F else 0xBF⟩
            (0x80 + c.toNat / 64 % 64) =
            ([], ⟨(0xE0 + c.toNat / 4096 - 0xE0) * 64 + (0x80 + c.toNat / 64 % 64 - 0x80),
                  2, 1, 0x80, 0xBF⟩) := by
          simp only [utf8Byte]
          rw [if_neg (by simp), if_pos (And.intro hlo hhi), if_neg (by simp)]
        have s3 : utf8Byte ⟨(0xE0 + c.toNat / 4096 - 0xE0) * 64 +
              (0x80 + c.toNat / 64 % 64 - 0x80), 2, 1, 0x80, 0xBF⟩
            (0x80 + c.toNat % 64) = ([c], utf8Init) := by
          simp only [utf8Byte]
          rw [if_neg (by simp), if_pos hb3, if_pos (by simp)]
          rw [show ((0xE0 + c.toNat / 4096 - 0xE0) * 64 +
                (0x80 + c.toNat / 64 % 64 - 0x80)) * 64 + (0x80 + c.toNat % 64 - 0x80) =
                c.toNat from by omega,
            Char.ofNat_toNat]
        rw [he]
        simp only [utf8Decode, List.cons_append, List.nil_append, utf8DecodeLoop]
        rw [s1]
        simp only [List.nil_append]
        rw [s2]
        simp only [List.nil_append]
        rw [s3]
        simp
      · have he : utf8EncodeChar c =
            [0xF0 + c.toNat / 0x40000, 0x80 + c.toNat / 4096 % 64,
             0x80 + c.toNat / 64 % 64, 0x80 + c.toNat % 64] := by
          simp [utf8EncodeChar, h1, h2, h3]
        have hb0 : ¬ (0xF0 + c.toNat / 0x40000 ≤ 0x7F) := by omega
        have hb1 : ¬ (0xC2 ≤ 0xF0 + c.toNat / 0x40000 ∧
            0xF0 + c.toNat / 0x40000 ≤ 0xDF) := by omega
        have hb2 : ¬ (0xE0 ≤ 0xF0 + c.toNat / 0x40000 ∧
            0xF0 + c.toNat / 0x40000 ≤ 0xEF) := by omega
        have hb3 : 0xF0 ≤ 0xF0 + c.toNat / 0x40000 ∧
            0xF0 + c.toNat / 0x40000 ≤ 0xF4 := by omega
        have hlo : (if 0xF0 + c.toNat / 0x40000 = 0xF0 then 0x90 else 0x80) ≤
            0x80 + c.toNat / 4096 % 64 := by
          split <;> omega
        have hhi : 0x80 + c.toNat / 4096 % 64 ≤
            (if 0xF0 + c.toNat / 0x40000 = 0xF4 then 0x8F else 0xBF) := by
          split <;> omega
        have hb4 : 0x80 ≤ 0x80 + c.toNat / 64 % 64 ∧
            0x80 + c.toNat / 64 % 64 ≤ 0xBF := by omega
        have hb5 : 0x80 ≤ 0x80 + c.toNat % 64 ∧ 0x80 + c.toNat % 64 ≤ 0xBF := by omega
        have s1 : utf8Byte utf8Init (0xF0 + c.toNat / 0x40000) =
            ([], ⟨0xF0 + c.toNat / 0x40000 - 0xF0, 3, 0,
                  if 0xF0 + c.toNat / 0x40000 = 0xF0 then 0x90 else 0x80,
                  if 0xF0 + c.toNat / 0x40000 = 0xF4 then 0x8F else 0xBF⟩) := by
          simp [utf8Byte, utf8Lead, utf8Init, hb0, hb1, hb2, hb3]
        have s2 : utf8Byte ⟨0xF0 + c.toNat / 0x40000 - 0xF0, 3, 0,
              if 0xF0 + c.toNat / 0x40000 = 0xF0 then 0x90 else 0x80,
              if 0xF0 + c.toNat / 0x40000 = 0xF4 then 0x8F else 0xBF⟩
            (0x80 + c.toNat / 4096 % 64) =
            ([], ⟨(0xF0 + c.toNat / 0x40000 - 0xF0) * 64 +
                  (0x80 + c.toNat / 4096 % 64 - 0x80), 3, 1, 0x80, 0xBF⟩) := by
          simp only [utf8Byte]
          rw [if_neg (by simp), if_pos (And.intro hlo hhi), if_neg (by simp)]
        have s3 : utf8Byte ⟨(0xF0 + c.toNat / 0x40000 - 0xF0) * 64 +
              (0x80 + c.toNat / 4096 % 64 - 0x80), 3, 1, 0x80, 0xBF⟩
            (0x80 + c.toNat / 64 % 64) =
            ([], ⟨((0xF0 + c.toNat / 0x40000 - 0xF0) * 64 +
                  (0x80 + c.toNat / 4096 % 64 - 0x80)) * 64 +
                  (0x80 + c.toNat / 64 % 64 - 0x80), 3, 2, 0x80, 0xBF⟩) := by
          simp only [utf8Byte]
          rw [if_neg (by simp), if_pos hb4, if_neg (by simp)]
        have s4 : utf8Byte ⟨((0xF0 + c.toNat / 0x40000 - 0xF0) * 64 +
              (0x80 + c.toNat / 4096 % 64 - 0x80)) * 64 +
              (0x80 + c.toNat / 64 % 64 - 0x80), 3, 2, 0x80, 0xBF⟩
            (0x80 + c.toNat % 64) = ([c], utf8Init) := by
          simp only [utf8Byte]
          rw [if_neg (by simp), if_pos hb5, if_pos (by simp)]
          rw [show (((0xF0 + c.toNat / 0x40000 - 0xF0) * 64 +
                (0x80 + c.toNat / 4096 % 64 - 0x80)) * 64 +
                (0x80 + c.toNat / 64 % 64 - 0x80)) * 64 + (0x80 + c.toNat % 64 - 0x80) =
                c.toNat from by omega,
            Char.ofNat_toNat]
        rw [he]
        simp only [utf8Decode, List.cons_append, List.nil_append, utf8DecodeLoop]
        rw [s1]
        simp only [List.nil_append]
        rw [s2]
        simp only [List.nil_append]
        rw [s3]
        simp only [List.nil_append]
        rw [s4]
        simp

theorem utf8Decode_encode_append (s : List Char) :
    ∀ bs : List Nat, utf8Decode (utf8Encode s ++ bs) = s ++ utf8Decode bs := by
  induction s with
  | nil => intro bs; simp [utf8Encode]
  | cons c s' ih =>
    intro bs
    have he : utf8Encode (c :: s') = utf8EncodeChar c ++ utf8Encode s' := by
      simp [utf8Encode]
    rw [he, List.append_assoc, utf8Decode_encodeChar, ih]
    rfl

theorem utf8Decode_encode (s : List Char) : utf8Decode (utf8Encode s) = s := by
  have h := utf8Decode_encode_append s []
  simpa [utf8Decode, utf8DecodeLoop, utf8Init] using h

theorem feedBytes_encode (pending s : List Char) :
    feedBytes pending (utf8Encode s) = feed pending s := by
  simp [feedBytes, utf8Decode_encode]

theorem feedAllBytes_encode (chunks : List (List Char)) :
    ∀ pending : List Char,
      feedAllBytes pending (chunks.map utf8Encode) = feedAll pending chunks := by
  induction chunks with
  | nil => intro p; rfl
  | cons ch chs ih =>
    intro p
    simp only [List.map_cons, feedAllBytes, feedAll, feedBytes_encode, ih]

theorem utf8Encode_flatten (chunks : List (List Char)) :
    (chunks.map utf8Encode).flatten = utf8Encode chunks.flatten := by
  induction chunks with
  | nil => rfl
  | cons ch chs ih =>
    simp [utf8Encode, List.map_append, List.flatten_append, ih]

theorem render_append (a b : List Tok) : render (a ++ b) = render a ++ render b := by
  simp [render]

theorem spliceOut_eq_render (st : Bool) (r c : Option (List Char)) :
    spliceOut st r c = (render (stepToks st r c).1, (stepToks st r c).2) := by
  cases st <;> by_cases hr : truthy r = true <;> by_cases hc : truthy c = true <;>
    simp [spliceOut, stepToks, render, renderTok, hr, hc]

theorem spliceRun_eq_render (ds : List Delta) : ∀ st : Bool,
    spliceRun st ds = (render (runToks st ds).1, (runToks st ds).2) := by
  induction ds with
  | nil => intro st; rfl
  | cons d ds ih =>
    intro st
    simp only [spliceRun, runToks, spliceOut_eq_render, ih, render_append]

theorem evSplice_append (a b : List Ev) : ∀ st : Bool,
    evSplice st (a ++ b) =
      ((evSplice st a).1 ++ (evSplice (evSplice st a).2 b).1,
       (evSplice (evSplice st a).2 b).2) := by
  induction a with
  | nil => intro st; simp [evSplice]
  | cons e a' ih =>
    intro st
    cases e with
    | evR s => simp [evSplice, ih]
    | evC s => simp [evSplice, ih]

theorem stepToks_eq_evSplice (st : Bool) (r c : Option (List Char)) :
    stepToks st r c =
      evSplice st ((if truthy r then [Ev.evR (r.getD [])] else []) ++
                   (if truthy c then [Ev.evC (c.getD [])] else [])) := by
  cases st <;> by_cases hr : truthy r = true <;> by_cases hc : truthy c = true <;>
    simp [stepToks, evSplice, hr, hc]

theorem runToks_eq_evSplice (ds : List Delta) : ∀ st : Bool,
    runToks st ds = evSplice st (events ds) := by
  induction ds with
  | nil => intro st; rfl
  | cons d ds ih =>
    intro st
    simp only [runToks, events, stepToks_eq_evSplice, ih, evSplice_append]

theorem countTok_append (p : Tok → Bool) (a b : List Tok) :
    countTok p (a ++ b) = countTok p a + countTok p b := by
  simp [countTok, List.filter_append]

theorem countTok_cons (p : Tok → Bool) (t : Tok) (ts : List Tok) :
    countTok p (t :: ts) = (if p t then 1 else 0) + countTok p ts := by
  by_cases h : p t = true <;> simp [countTok, List.filter_cons, h, Nat.add_comm]

theorem evSplice_open_count (es : List Ev) : ∀ st : Bool,
    countTok isOpenTok (evSplice st es).1 = runsFrom isR st es := by
  induction es with
  | nil => intro st; rfl
  | cons e es ih =>
    intro st
    cases e with
    | evR s =>
      cases st <;>
        simp [evSplice, runsFrom, isR, countTok_cons, isOpenTok, ih]
    | evC s =>
      cases st <;>
        simp [evSplice, runsFrom, isR, countTok_cons, isOpenTok, ih]

theorem evSplice_close_count (es : List Ev) : ∀ st : Bool,
    countTok isCloseTok (evSplice st es).1 = closesFrom st es := by
  induction es with
  | nil => intro st; rfl
  | cons e es ih =>
    intro st
    cases e with
    | evR s =>
      cases st <;>
        simp [evSplice, closesFrom, isR, countTok_cons, isCloseTok, ih]
    | evC s =>
      cases st <;>
        simp [evSplice, closesFrom, isR, countTok_cons, isCloseTok, ih]

theorem closeOk_piece (s : List Char) (ts : List Tok) :
    closeOk (Tok.piece s :: ts) = closeOk ts := rfl

theorem closeOk_open (ts : List Tok) : closeOk (Tok.tOpen :: ts) = closeOk ts := rfl

theorem closeOk_close_piece (s : List Char) (ts : List Tok) :
    closeOk (Tok.tClose :: Tok.piece s :: ts) = closeOk ts := by
  simp [closeOk]

theorem evSplice_close_placement (es : List Ev) : ∀ st : Bool,
    closeOk (evSplice st es).1 = true := by
  induction es with
  | nil => intro st; rfl
  | cons e es ih =>
    intro st
    cases e with
    | evR s =>
      cases st <;>
        simp [evSplice, closeOk_piece, closeOk_open, ih]
    | evC s =>
      cases st <;>
        simp [evSplice, closeOk_piece, closeOk_close_piece, ih]

theorem evSplice_open_close_balance (es : List Ev) : ∀ st : Bool,
    runsFrom isR st es + (if st then 1 else 0) =
      closesFrom st es + (if (evSplice st es).2 then 1 else 0) := by
  induction es with
  | nil => intro st; rfl
  | cons e es ih =>
    intro st
    cases e with
    | evR s =>
      have h := ih true
      simp at h
      cases st <;> simp [evSplice, runsFrom, closesFrom, isR] <;> omega
    | evC s =>
      have h := ih false
      simp at h
      cases st <;> simp [evSplice, runsFrom, closesFrom, isR] <;> omega

theorem containsSeq_mono (pat b : List Char) (h : containsSeq pat b = true) :
    ∀ a : List Char, containsSeq pat (a ++ b) = true := by
  intro a
  induction a with
  | nil => simpa
  | cons c a' ih => simp [containsSeq, ih]

/-- C1 (amended): over any sequence of deltas started CLOSED, the emitted
visible text is the rendering of a token stream in which there is exactly
one opening delimiter per maximal contiguous run of reasoning events —
where a fragment counts only when nonempty (JS truthiness) and frames
carrying neither fragment do not interrupt a run — every closing delimiter
is immediately followed by the visible fragment it introduces, and the
number of opening delimiters exceeds the number of closing delimiters by
one exactly when the stream ends with the reasoning run still open. -/
theorem splice_bracketing_amended (ds : List Delta) :
    (spliceRun false ds).1 = render (evSplice false (events ds)).1 ∧
    (spliceRun false ds).2 = (evSplice false (events ds)).2 ∧
    countTok isOpenTok (evSplice false (events ds)).1 = countRuns isR (events ds) ∧
    closeOk (evSplice false (events ds)).1 = true ∧
    countTok isOpenTok (evSplice false (events ds)).1 =
      countTok isCloseTok (evSplice false (events ds)).1 +
        (if (spliceRun false ds).2 then 1 else 0) := by
  have hs2 : (spliceRun false ds).2 = (evSplice false (events ds)).2 := by
    rw [spliceRun_eq_render, runToks_eq_evSplice]
  refine ⟨?_, hs2, ?_, evSplice_close_placement (events ds) false, ?_⟩
  · rw [spliceRun_eq_render, runToks_eq_evSplice]
  · simpa [countRuns] using evSplice_open_count (events ds) false
  · rw [evSplice_open_count, evSplice_close_count, hs2]
    simpa using evSplice_open_close_balance (events ds) false

/-- C1 counterexample: for the delta sequence reasoning, neither, reasoning
there are two maximal contiguous runs of frames carrying a reasoning
fragment, but the concatenated visible text contains exactly one opening
delimiter, refuting the claim as stated. -/
theorem splice_bracketing_counterexample :
    countRuns (fun d => truthy d.reasoning_content)
      [(⟨some ['a'], none⟩ : Delta), ⟨none, none⟩, ⟨some ['b'], none⟩] = 2 ∧
    countSeq OPEN_DELIMITER
      (spliceRun false [⟨some ['a'], none⟩, ⟨none, none⟩, ⟨some ['b'], none⟩]).1 = 1 := by
  decide

/-- C2 (amended): for every partition of a byte sequence at character
boundaries — each chunk the UTF-8 encoding of a whole character sequence —
feeding the chunks in order through the reassembler yields exactly the
same complete lines, in the same order, and the same final pending tail
as feeding the whole byte sequence as one chunk.  Partitions that split
inside a multi-byte character are excluded: `chunk.toString()` decodes
each chunk on its own and turns a split character into replacement
characters (see the counterexample). -/
theorem reassembly_partition_invariant_bytes (chunks : List (List Char)) :
    feedAllBytes [] (chunks.map utf8Encode) =
      feedBytes [] ((chunks.map utf8Encode).flatten) := by
  rw [utf8Encode_flatten, feedAllBytes_encode, feedBytes_encode]
  exact feedAll_char_eq_feed_flatten chunks

/-- C2 counterexample: the byte sequence of the line 中 followed by the
terminator (E4 B8 AD 0A), partitioned inside the three-byte character
(chunk E4, then chunk B8 AD 0A), decodes chunk-wise to replacement
characters, so the chunked feed emits a different complete line than
feeding the whole sequence at once — byte-level partition invariance
fails for splits inside a multi-byte character. -/
theorem reassembly_byte_counterexample :
    feedAllBytes [] [[0xE4], [0xB8, 0xAD, 0x0A]] ≠
      feedBytes [] [0xE4, 0xB8, 0xAD, 0x0A] := by
  decide

/-- C3 (amended): aggregating a message with reasoning R and content C
coincides with the streaming splice of the two corresponding deltas when R
is empty; when R is nonempty the non-streaming path inserts an extra
newline before the closing delimiter and emits the closing delimiter even
when C is empty, while the streaming path emits the closing delimiter only
when C is nonempty. -/
theorem nonstream_stream_relation (role R C : List Char) :
    aggregate ⟨role, some C, some R⟩ =
      (if R.isEmpty then (spliceRun false [⟨some R, none⟩, ⟨none, some C⟩]).1
       else OPEN_DELIMITER ++ R ++ [NLC] ++ CLOSE_DELIMITER ++ C) ∧
    (spliceRun false [⟨some R, none⟩, ⟨none, some C⟩]).1 =
      (if R.isEmpty then C
       else OPEN_DELIMITER ++ R ++ (if C.isEmpty then [] else CLOSE_DELIMITER ++ C)) := by
  constructor <;>
    by_cases hR : R.isEmpty <;> by_cases hC : C.isEmpty <;>
      simp_all [aggregate, spliceRun, spliceOut, truthy, SHOW_REASONING,
        OPEN_DELIMITER, CLOSE_DELIMITER, List.isEmpty_iff]

/-- C3 counterexample: with reasoning "x" and content "y" the
non-streaming rewrite and the streaming splice produce different visible
text (the non-streaming template has a newline before the closing
delimiter), refuting the claimed equality. -/
theorem nonstream_stream_counterexample :
    aggregate ⟨[], some ['y'], some ['x']⟩ ≠
      (spliceRun false [⟨some ['x'], none⟩, ⟨none, some ['y']⟩]).1 := by
  decide

/-- C4: the outbound axios call is configured with only an authorization
header, a content type and a response type — no cancellation signal is
bound to it — and no handler is registered on the inbound request for
client disconnects; the code therefore lacks the claimed abort
propagation. -/
theorem no_cancellation_binding (apiKey : String) (stream : Bool) :
    (upstreamConfig apiKey stream).signal = none ∧
    inboundReqSubscriptions = [] ∧
    "close" ∉ upstreamStreamSubscriptions ∧
    "abort" ∉ upstreamStreamSubscriptions := by
  refine ⟨rfl, rfl, ?_, ?_⟩ <;> decide

/-- C5 (amended): a data frame whose delta carries neither fragment is
forwarded (not dropped), but its content field is overwritten with the
empty string and its reasoning field removed, so it is not forwarded
unchanged; the splice state is untouched. -/
theorem noop_frame_rewritten (st : Bool) :
    handleRec st ⟨some ⟨none, none⟩⟩ = (some ⟨some ⟨none, some []⟩⟩, st) := rfl

/-- C5 counterexample: the delta with neither fragment is forwarded with
its content field set to the empty string, which differs from the original
frame, refuting the claim that such frames pass through unchanged. -/
theorem noop_frame_unchanged_counterexample :
    (handleRec false ⟨some ⟨none, none⟩⟩).1 = some ⟨some ⟨none, some []⟩⟩ ∧
    some (⟨some ⟨none, some []⟩⟩ : Rec) ≠ some ⟨some (⟨none, none⟩ : Delta)⟩ := by
  decide

/-- C6 (amended): a present-but-empty reasoning fragment is falsy in the
source's truthiness tests and is treated exactly like an absent one: no
opening delimiter is emitted, the state does not transition to OPEN, and
the visible text for the frame is the empty string. -/
theorem empty_reasoning_as_absent (st : Bool) :
    spliceDelta st ⟨some [], none⟩ = (⟨none, some []⟩, st) := rfl

/-- C6 counterexample: with the empty-string reasoning fragment in the
CLOSED state the splicer stays CLOSED and emits no opening delimiter,
refuting the claim that presence of an empty field opens a reasoning run. -/
theorem empty_reasoning_counterexample :
    (spliceDelta false ⟨some [], none⟩).2 = false ∧
    (spliceDelta false ⟨some [], none⟩).1.content = some [] ∧
    some ([] : List Char) ≠ some (OPEN_DELIMITER ++ []) := by
  decide

/-- C7: a candidate line whose remainder contains the terminal sentinel is
classified Terminal under every parse function (so it is never parsed as a
structured record), and its processing immediately writes exactly the
line's original bytes followed by the two newline terminators, leaving the
splice state untouched. -/
theorem terminal_line_forwarded (P Q : List Char → Option Rec)
    (S : Rec → List Char) (st : Bool) (line : List Char)
    (h1 : beginsWith dataMarker line = true)
    (h2 : containsSeq doneMarker (List.drop 6 line) = true) :
    classify P line = Frame.terminal ∧
    classify Q line = Frame.terminal ∧
    processLine P S st line = ([line ++ [NLC, NLC]], st) := by
  have hc : containsSeq doneMarker line = true := by
    have hx := containsSeq_mono doneMarker (List.drop 6 line) h2 (List.take 6 line)
    rwa [List.take_append_drop] at hx
  have hcl : ∀ R : List Char → Option Rec, classify R line = Frame.terminal := by
    intro R; simp [classify, h1, hc]
  exact ⟨hcl P, hcl Q, by simp [processLine, hcl P]⟩

/-- C7 witness: the concrete terminal line, with a parse function that
fails and one that succeeds, is classified Terminal under both and
forwarded byte-for-byte. -/
theorem terminal_line_forwarded_witness :
    (beginsWith dataMarker "data: [DONE]".toList = true ∧
     containsSeq doneMarker (List.drop 6 "data: [DONE]".toList) = true) ∧
    (classify (fun _ => none) "data: [DONE]".toList = Frame.terminal ∧
     classify (fun _ => some ⟨none⟩) "data: [DONE]".toList = Frame.terminal ∧
     processLine (fun _ => none) (fun _ => []) false "data: [DONE]".toList =
       (["data: [DONE]".toList ++ [NLC, NLC]], false)) :=
  ⟨⟨by decide, by decide⟩,
   terminal_line_forwarded (fun _ => none) (fun _ => some ⟨none⟩) (fun _ => [])
     false "data: [DONE]".toList (by decide) (by decide)⟩

/-- C8: a line that does not begin with the data prefix is Ignorable no
matter what it contains or how the parser behaves, and a candidate line
that is not terminal and whose remainder fails to parse is Ignorable too;
in both cases it produces no write, raises no error, and processing of the
remaining lines continues exactly as if the line had not been there. -/
theorem nondata_or_unparseable_dropped (P : List Char → Option Rec)
    (S : Rec → List Char) (st : Bool) (line : List Char)
    (rest : List (List Char))
    (h : beginsWith dataMarker line = false ∨
         (containsSeq doneMarker line = false ∧ P (List.drop 6 line) = none)) :
    classify P line = Frame.ignorable ∧
    processLines P S st (line :: rest) = processLines P S st rest := by
  have hcl : classify P line = Frame.ignorable := by
    rcases h with h | ⟨h1, h2⟩
    · simp [classify, h]
    · cases hb : beginsWith dataMarker line with
      | false => simp [classify, hb]
      | true => simp [classify, hb, h1, h2]
  exact ⟨hcl, by simp [processLines, processLine, hcl]⟩

/-- C8 witness: a non-candidate line that itself contains the terminal
sentinel, under a parser that would succeed on it, is still Ignorable and
leaves the processing of the remaining lines untouched. -/
theorem nondata_or_unparseable_dropped_witness :
    (beginsWith dataMarker "x: [DONE]".toList = false ∨
     (containsSeq doneMarker "x: [DONE]".toList = false ∧
      (fun _ : List Char => some (⟨none⟩ : Rec)) (List.drop 6 "x: [DONE]".toList) = none)) ∧
    (classify (fun _ => some ⟨none⟩) "x: [DONE]".toList = Frame.ignorable ∧
     processLines (fun _ => some ⟨none⟩) (fun _ => []) false
         ["x: [DONE]".toList, "data: rest".toList] =
       processLines (fun _ => some ⟨none⟩) (fun _ => []) false ["data: rest".toList]) :=
  ⟨Or.inl (by decide),
   nondata_or_unparseable_dropped (fun _ => some ⟨none⟩) (fun _ => []) false
     "x: [DONE]".toList ["data: rest".toList] (Or.inl (by decide))⟩

/-- C9 (amended): a public model identifier missing from the mapping
table and not colliding with a property inherited from
`Object.prototype` is not an error — the routing forwards the identifier
as-is, or the fixed default when the identifier is JavaScript-falsy
(empty); an identifier that names an inherited property instead yields
the inherited truthy value, so neither fallback fires. -/
theorem unknown_model_fallback_amended (m : String)
    (h : List.lookup m MODEL_MAPPING = none) :
    routeModel m =
      (if m ∈ OBJECT_PROTOTYPE_KEYS then JSVal.builtin m
       else JSVal.str (if m.isEmpty then DEFAULT_MODEL else m)) := by
  unfold routeModel objIndex
  rw [h]
  by_cases hp : m ∈ OBJECT_PROTOTYPE_KEYS
  · simp [hp, jsTruthy]
  · by_cases hm : m.isEmpty <;> simp [hp, hm, jsTruthy]

/-- C9 witness: a concrete identifier absent from the table and from the
prototype chain is forwarded as-is. -/
theorem unknown_model_fallback_amended_witness :
    List.lookup "llama-custom" MODEL_MAPPING = none ∧
    routeModel "llama-custom" =
      (if "llama-custom" ∈ OBJECT_PROTOTYPE_KEYS then JSVal.builtin "llama-custom"
       else JSVal.str
         (if ("llama-custom" : String).isEmpty then DEFAULT_MODEL else "llama-custom")) :=
  ⟨by decide, unknown_model_fallback_amended "llama-custom" (by decide)⟩

/-- C9 counterexample: the identifier toString is not in the mapping
table, yet the code routes it to the inherited `Object.prototype.toString`
function — it is neither forwarded as-is nor replaced by the default,
refuting the claim as stated. -/
theorem unknown_model_fallback_counterexample :
    List.lookup "toString" MODEL_MAPPING = none ∧
    routeModel "toString" ≠ JSVal.str "toString" ∧
    routeModel "toString" ≠ JSVal.str DEFAULT_MODEL := by
  decide

/-- C10: the non-streaming response echoes the caller's public model
identifier, generates its id and created timestamp freshly from the
proxy's clock, and is unaffected by the id, created and model fields of
the upstream body. -/
theorem nonstream_response_fields (m : String) (now : Nat) (up : UpstreamBody)
    (x : String) (y : Nat) (z : String) :
    (buildNonStream m now up).model = m ∧
    (buildNonStream m now up).id = "chatcmpl-" ++ toString now ∧
    (buildNonStream m now up).created = now / 1000 ∧
    buildNonStream m now { up with id := x, created := y, model := z } =
      buildNonStream m now up :=
  ⟨rfl, rfl, rfl, rfl⟩

end NimProxy
